import Mathlib

/-!
Verification of the XML3D StandardCamera gesture-to-transform engine
(`camera.js` and its historical variant).

The 3D math follows the gl-matrix conventions used by the XML3D library:
`Vec3.transformQuat` is the cross-product formula of `vec3.transformQuat`,
`Quat.mul` is the Hamilton product in gl-matrix component order, and
`Quat.normalize` scales by the reciprocal square root of the squared length
(returning the zero quaternion unchanged).  Scalars live in an arbitrary
linear ordered field; the square root, axis-angle conversions and the
IEEE NaN test are transcendental or representation-level operations of the
host library, so they enter as explicit function parameters bundled in
`Env`, constrained in each theorem by exactly the algebraic facts the real
operations satisfy.
-/

namespace CameraJS

/-- 3-component vector, mirroring `XML3D.Vec3`. -/
@[ext]
structure Vec3 (K : Type) where
  x : K
  y : K
  z : K
deriving DecidableEq, Repr

/-- Quaternion, mirroring `XML3D.Quat` (vector part `x,y,z`, scalar part `w`). -/
@[ext]
structure Quat (K : Type) where
  x : K
  y : K
  z : K
  w : K
deriving DecidableEq, Repr

variable {K : Type} [LinearOrderedField K]

namespace Vec3

/-- Componentwise addition (`vec3.add`). -/
def add (a b : Vec3 K) : Vec3 K := ⟨a.x + b.x, a.y + b.y, a.z + b.z⟩

/-- Componentwise subtraction (`vec3.subtract`). -/
def sub (a b : Vec3 K) : Vec3 K := ⟨a.x - b.x, a.y - b.y, a.z - b.z⟩

/-- Scalar multiple (`vec3.scale`). -/
def scale (a : Vec3 K) (c : K) : Vec3 K := ⟨a.x * c, a.y * c, a.z * c⟩

/-- Dot product (`vec3.dot`). -/
def dot (a b : Vec3 K) : K := a.x * b.x + a.y * b.y + a.z * b.z

/-- Cross product (`vec3.cross`). -/
def cross (a b : Vec3 K) : Vec3 K :=
  ⟨a.y * b.z - a.z * b.y, a.z * b.x - a.x * b.z, a.x * b.y - a.y * b.x⟩

/-- Squared length (`vec3.sqrLen`). -/
def sqrLen (a : Vec3 K) : K := a.x * a.x + a.y * a.y + a.z * a.z

/-- `vec3.transformQuat`: `v + 2*w*(u × v) + 2*(u × (u × v))` with `u` the
vector part of `q`.  Agrees with quaternion conjugation when `q` is unit. -/
def transformQuat (v : Vec3 K) (q : Quat K) : Vec3 K :=
  let u : Vec3 K := ⟨q.x, q.y, q.z⟩
  let uv := u.cross v
  let uuv := u.cross uv
  ⟨v.x + 2 * (uv.x * q.w + uuv.x),
   v.y + 2 * (uv.y * q.w + uuv.y),
   v.z + 2 * (uv.z * q.w + uuv.z)⟩

end Vec3

namespace Quat

/-- Hamilton product in gl-matrix component order (`quat.multiply this b`). -/
def mul (a b : Quat K) : Quat K :=
  ⟨a.x * b.w + a.w * b.x + a.y * b.z - a.z * b.y,
   a.y * b.w + a.w * b.y + a.z * b.x - a.x * b.z,
   a.z * b.w + a.w * b.z + a.x * b.y - a.y * b.x,
   a.w * b.w - a.x * b.x - a.y * b.y - a.z * b.z⟩

/-- Squared norm. -/
def normSq (q : Quat K) : K := q.x * q.x + q.y * q.y + q.z * q.z + q.w * q.w

/-- Vector (imaginary) part. -/
def vec (q : Quat K) : Vec3 K := ⟨q.x, q.y, q.z⟩

/-- Conjugate. -/
def conj (q : Quat K) : Quat K := ⟨-q.x, -q.y, -q.z, q.w⟩

/-- Embed a vector as a pure quaternion. -/
def pureQ (v : Vec3 K) : Quat K := ⟨v.x, v.y, v.z, 0⟩

/-- Identity quaternion (`new XML3D.Quat()`). -/
def idQ : Quat K := ⟨0, 0, 0, 1⟩

/-- `quat.normalize`, with the square root supplied as `sq`: scale by the
reciprocal root of the squared length when it is positive, otherwise (the
zero quaternion) scale by the squared length itself, as gl-matrix does. -/
def normalize (sq : K → K) (q : Quat K) : Quat K :=
  let l := q.normSq
  let len := if 0 < l then 1 / sq l else l
  ⟨q.x * len, q.y * len, q.z * len, q.w * len⟩

end Quat

/-- `intersect_ray_plane(ray, plane_normal, plane_origin)` from camera.js:
`divisor = d·n`; if zero, the origin is returned exactly when the ray lies in
the plane; otherwise the parameter `factor/divisor` must be nonnegative. -/
def intersect_ray_plane (o d n p : Vec3 K) : Option (Vec3 K) :=
  let divisor := d.dot n
  let factor := (p.sub o).dot n
  if divisor = 0 then
    if factor = 0 then some o else none
  else
    let t := factor / divisor
    if t < 0 then none else some (o.add (d.scale t))

/-- `intersect_xz_plane(ray)` from camera.js: the specialised fast path for
the horizontal plane through the world origin. -/
def intersect_xz_plane (o d : Vec3 K) : Option (Vec3 K) :=
  if d.y = 0 ∧ o.y = 0 then some o
  else if 0 ≤ d.y ∨ o.y ≤ 0 then none
  else some (o.add (d.scale (-(o.y / d.y))))

/-- Host-library and host-environment operations that the engine consumes but
does not define: the square root used by `quat.normalize`, the axis-angle
conversions (`XML3D.AxisAngle.fromQuat`, `XML3D.Quat.fromAxisAngle`), the
IEEE NaN test on a squared length, and the scene metadata and construction
options read by the handlers (`Math.PI`, viewport size, speeds,
`Math.tan(fieldOfView/2)`, the configured up vector). -/
structure Env (K : Type) where
  sq : K → K
  fromAA : Vec3 K → K → Quat K
  axisOf : Quat K → Vec3 K
  angleOf : Quat K → K
  isNaN : K → Bool
  pi : K
  width : K
  height : K
  rotateSpeed : K
  zoomSpeed : K
  tanHalfFov : K
  upVector : Vec3 K

/-- Camera pose held by the `TransformInterface` facade: stored position and
orientation of the controlled scene node. -/
@[ext]
structure Pose (K : Type) where
  position : Vec3 K
  orientation : Quat K
deriving DecidableEq, Repr

/-- Forward direction getter: `(0,0,-1)` transformed by the orientation. -/
def direction (p : Pose K) : Vec3 K := Vec3.transformQuat ⟨0, 0, -1⟩ p.orientation

/-- `TransformInterface.inverseTransformOf`: transform a vector by the current
orientation. -/
def inverseTransformOf (p : Pose K) (v : Vec3 K) : Vec3 K :=
  v.transformQuat p.orientation

/-- `TransformInterface.translate`. -/
def translate (p : Pose K) (t0 : Vec3 K) : Pose K :=
  { p with position := p.position.add t0 }

/-- `TransformInterface.rotate`. -/
def rotate (e : Env K) (p : Pose K) (q0 : Quat K) : Pose K :=
  { p with orientation := (p.orientation.mul q0).normalize e.sq }

/-- `TransformInterface.rotateAroundPoint(q0, p0)`.  The orientation is
composed and written back first; the axis of `q0` is then transformed by the
orientation read back after that write (`inverseTransformOf` reads the new
orientation), and the position offset from `p0` is rotated by the rebuilt
quaternion. -/
def rotateAroundPoint (e : Env K) (p : Pose K) (q0 : Quat K) (p0 : Vec3 K) : Pose K :=
  let o' := (p.orientation.mul q0).normalize e.sq
  let axis := (e.axisOf q0).transformQuat o'
  let tmpQuat := e.fromAA axis (e.angleOf q0)
  { position := ((p.position.sub p0).transformQuat tmpQuat).add p0,
    orientation := o' }

/-- `TransformInterface.lookAround(rotSide, rotUp, upVector)`: the vertical
rotation is composed only when the forward direction it would produce stays
at least `0.05` away (in absolute dot product, threshold `0.95`) from the up
axis; the composite is normalized, multiplied onto the old orientation and
normalized again. -/
def lookAround (e : Env K) (p : Pose K) (rotSide rotUp : Quat K) (upVector : Vec3 K) : Pose K :=
  let check := rotUp.mul p.orientation
  let tmp := Vec3.transformQuat ⟨0, 0, -1⟩ check
  let rot := if |upVector.dot tmp| ≤ 95 / 100 then rotSide.mul rotUp else rotSide
  { p with orientation := ((rot.normalize e.sq).mul p.orientation).normalize e.sq }

/-- `TRANSLATE.move(x, y, dx, dy)`: pan in the camera's local XY plane,
scaled by `2·tan(fov/2)/height · zoomSpeed`. -/
def translateMove (e : Env K) (p : Pose K) (dx dy : K) : Pose K :=
  let f := 2 * e.tanHalfFov / e.height
  let dx' := f * dx * e.zoomSpeed
  let dy' := f * dy * e.zoomSpeed
  translate p (inverseTransformOf p ⟨-dx', dy', 0⟩)

/-- `DOLLY.move(x, y, dx, dy)`: move along the local Z axis. -/
def dollyMove (e : Env K) (p : Pose K) (dy : K) : Pose K :=
  let dy' := e.zoomSpeed * dy / e.height
  translate p (inverseTransformOf p ⟨0, 0, dy'⟩)

/-- `ROTATE.move(x, y, dx, dy)`: compose a yaw about the world up axis with a
pitch about the world x axis and orbit around the examine point via
`rotateAroundPoint`. -/
def rotateMove (e : Env K) (ep : Vec3 K) (p : Pose K) (dx dy : K) : Pose K :=
  let dx' := -e.rotateSpeed * dx * 2 * e.pi / e.width
  let dy' := -e.rotateSpeed * dy * 2 * e.pi / e.height
  let mx := e.fromAA ⟨0, 1, 0⟩ dx'
  let my := e.fromAA ⟨1, 0, 0⟩ dy'
  rotateAroundPoint e p (mx.mul my) ep

/-- `LOOKAROUND.move(x, y, dx, dy)`: first-person look, yaw about the
configured up vector and pitch about `up × forward`, guarded by
`lookAround`. -/
def lookAroundMove (e : Env K) (p : Pose K) (dx dy : K) : Pose K :=
  let dx' := -e.rotateSpeed * dx * 2 * e.pi / e.width
  let dy' := e.rotateSpeed * dy * 2 * e.pi / e.height
  let cross := e.upVector.cross (direction p)
  let mx := e.fromAA e.upVector dx'
  let my := e.fromAA cross dy'
  lookAround e p mx my e.upVector

/-- A ray as produced by `xml3d.generateRay`. -/
structure Ray (K : Type) where
  origin : Vec3 K
  direction : Vec3 K
deriving DecidableEq, Repr

/-- `PANNING.move(x, y, dx, dy)` with the re-cast ray through the current
pointer position supplied by the host: skip the update when the drag point is
unset, when the ray misses the horizontal plane through the drag point, or
when the difference has NaN squared length; otherwise translate by
`dragPoint − hitpoint`. -/
def panningMove (e : Env K) (dragPoint : Option (Vec3 K)) (ray : Ray K) (p : Pose K) :
    Pose K :=
  match dragPoint with
  | none => p
  | some dp =>
    match intersect_ray_plane ray.origin ray.direction ⟨0, 1, 0⟩ dp with
    | none => p
    | some hitpoint =>
      let diff := dp.sub hitpoint
      if e.isNaN diff.sqrLen then p else translate p diff

/-- `ORBIT.move(x, y, dx, dy)`: orbit about the examine point.  The composed
yaw-then-pitch update is applied only when the rotated `(0,0,1)` axis has
`y ∈ (0.05, 0.95)` and the would-be new position stays above height `5`;
otherwise only the yaw is applied, composed on the left without
renormalization. -/
def orbitMove (e : Env K) (ep : Option (Vec3 K)) (p : Pose K) (dx dy : K) : Pose K :=
  match ep with
  | none => p
  | some ep =>
    let dx' := -e.rotateSpeed * dx * 2 * e.pi / e.width
    let dy' := -e.rotateSpeed * dy * 2 * e.pi / e.height
    let mx := e.fromAA ⟨0, 1, 0⟩ dx'
    let my := e.fromAA (Vec3.transformQuat ⟨1, 0, 0⟩ (mx.mul p.orientation)) dy'
    let q0 := my.mul mx
    let tmp := (q0.mul p.orientation).normalize e.sq
    let rotatedDir := Vec3.transformQuat ⟨0, 0, 1⟩ tmp
    if 5 / 100 < rotatedDir.y ∧ rotatedDir.y < 95 / 100 then
      let diff := p.position.sub ep
      let rotated := diff.transformQuat q0
      if 5 < (ep.add rotated).y then
        { orientation := tmp, position := ep.add rotated }
      else
        { orientation := mx.mul p.orientation, position := ep.add (diff.transformQuat mx) }
    else
      let diff := p.position.sub ep
      { orientation := mx.mul p.orientation, position := ep.add (diff.transformQuat mx) }

/-- Interaction modes. -/
inductive Mode
  | examine
  | panning
  | lookaround
deriving DecidableEq, Repr

/-- The named camera actions of the catalog. -/
inductive ActionK
  | translate
  | dolly
  | rotate
  | lookaround
  | panning
  | orbit
deriving DecidableEq, Repr

/-- `MODES[mode].mouse`: mouse-button action table (`none` is the no-action
sentinel; out-of-range buttons read `undefined`, handled by `getD`). -/
def mouseTable : Mode → List (Option ActionK)
  | .examine => [some .rotate, some .translate, some .dolly]
  | .panning => [some .panning, some .dolly, some .orbit]
  | .lookaround => [some .lookaround, some .translate, some .dolly]

/-- `MODES[mode].touch`: touch-count action table (slots 2 and 3 are the
no-action sentinel in every mode). -/
def touchTable : Mode → List (Option ActionK)
  | .examine => [some .rotate, none, none]
  | .panning => [some .panning, none, none]
  | .lookaround => [some .lookaround, none, none]

/-- `this.mode.mouse[button]`; an out-of-range index yields `undefined`,
which the handlers treat like the sentinel. -/
def mouseLookup (m : Mode) (b : ℕ) : Option ActionK := (mouseTable m).getD b none

/-- Which actions define a `start` handler in camera.js. -/
def hasStart : ActionK → Bool
  | .rotate => true
  | .panning => true
  | .orbit => true
  | _ => false

/-- Which actions define an `end` handler in camera.js: none of them do. -/
def hasEnd : ActionK → Bool := fun _ => false

/-- The slice of engine state relevant to the pick-on-hover flag:
the current action, the saved `this.mousemovePicking`, and the scene-wide
`renderer-mousemove-picking` option (`picking`).  Pointer snapshots and the
pose are orthogonal to this flag: no action handler touches
`XML3D.options`. -/
structure MState where
  action : Option ActionK
  savedPicking : Bool
  picking : Bool
deriving DecidableEq, Repr

/-- `mousePressEvent` effect on `MState`: look up the button in the mode's
mouse table; on a falsy slot the handler returns right after the assignment,
before any flag manipulation; on a real action it saves the scene flag into
`mousemovePicking` and disables it. -/
def mousePressF (m : Mode) (b : ℕ) (s : MState) : MState :=
  match mouseLookup m b with
  | none => { s with action := none }
  | some a => { action := some a, savedPicking := s.picking, picking := false }

/-- `mouseMoveEvent` effect on `MState`: the handler only reads the action and
updates the pointer snapshot and pose; none of the tracked fields change. -/
def mouseMoveF (s : MState) : MState := s

/-- `mouseReleaseEvent` effect on `MState`: with no active action it returns
immediately; otherwise it restores the scene flag from the saved value and
clears the action. -/
def mouseReleaseF (s : MState) : MState :=
  match s.action with
  | none => s
  | some _ => { s with picking := s.savedPicking, action := none }

/-- Iterate `mouseMoveF`. -/
def movesIter : ℕ → MState → MState
  | 0, s => s
  | n + 1, s => movesIter n (mouseMoveF s)

/-- The slice of engine state relevant to touch-count transitions: the
current action and the previous-touch-position snapshot array. -/
structure TState (K : Type) where
  action : Option ActionK
  prevTouch : List (K × K)
deriving DecidableEq, Repr

/-- `this.mode.touch[ev.touches.length - 1]`; with no touches the JS index is
`-1`, reading `undefined`. -/
def touchSelect (m : Mode) (touches : List (K × K)) : Option ActionK :=
  if touches.isEmpty then none else (touchTable m).getD (touches.length - 1) none

/-- `touchStartEvent`: select the action from the touch table; a falsy slot
clears the action and returns without rebuilding the snapshot; a real action
fires its `start` handler (when it has one) with the first touch position and
replaces the snapshot with all current touches.  The second component records
the fired `start` invocation. -/
def touchStartF (m : Mode) (touches : List (K × K)) (s : TState K) :
    TState K × Option (ActionK × (K × K)) :=
  match touchSelect m touches with
  | none => ({ s with action := none }, none)
  | some a =>
    let fired := if hasStart a then some (a, touches.headD (0, 0)) else none
    ({ action := some a, prevTouch := touches }, fired)

/-- `touchEndEvent` in the current variant (camera.js): with no active action
it returns; otherwise it fires the active action's `end` handler when one
exists (no catalog action has one) with the first remaining touch, and clears
the action.  The snapshot array `prevTouchPositions` is not written.  The
second component records the fired `end` invocation. -/
def touchEndF (touches : List (K × K)) (s : TState K) :
    TState K × Option (ActionK × (K × K)) :=
  match s.action with
  | none => (s, none)
  | some a =>
    let fired := if hasEnd a then some (a, touches.headD (0, 0)) else none
    ({ s with action := none }, fired)

/-- `touchEndEvent` in the historical variant: re-select the action from the
remaining touch count by the mode switch and rebuild the snapshot from all
remaining touches; no handlers are invoked. -/
def touchEndHistF (m : Mode) (touches : List (K × K)) (_s : TState K) : TState K :=
  let act : Option ActionK :=
    match touches.length with
    | 1 => some (match m with
        | .examine => .rotate
        | .panning => .panning
        | .lookaround => .lookaround)
    | 2 => some (if m = .panning then .orbit else .dolly)
    | 3 => some (if m = .panning then .dolly else .translate)
    | _ => none
  { action := act, prevTouch := touches }

/-- A concrete rational environment used to evaluate the theorems on explicit
inputs: the square root is the identity (adequate wherever only `sq 1 = 1` is
required), `fromAA` returns the identity rotation, the axis of a quaternion
is its vector part, every angle is `0`, and nothing is NaN (exact
arithmetic). -/
def envQ : Env ℚ :=
  { sq := fun x => x
    fromAA := fun _ _ => Quat.idQ
    axisOf := Quat.vec
    angleOf := fun _ => 0
    isNaN := fun _ => false
    pi := 0
    width := 1
    height := 1
    rotateSpeed := 1
    zoomSpeed := 1
    tanHalfFov := 1
    upVector := ⟨0, 1, 0⟩ }

/-- A concrete rational environment for the orbit counterexample: `pi` is an
exact stand-in scale, and `fromAA` realises, at the two angle arguments that
actually occur, two unit rotations whose sine and cosine of the half angle
are `3/5, 4/5` (angle argument `1`, the yaw) and `7/25, 24/25` (any other
argument, the pitch) — values the real `Quat.fromAxisAngle` produces at some
real input angle. -/
def envC : Env ℚ :=
  { sq := fun x => x
    fromAA := fun a t =>
      if t = 1 then ⟨3 / 5 * a.x, 3 / 5 * a.y, 3 / 5 * a.z, 4 / 5⟩
      else ⟨7 / 25 * a.x, 7 / 25 * a.y, 7 / 25 * a.z, 24 / 25⟩
    axisOf := Quat.vec
    angleOf := fun _ => 0
    isNaN := fun _ => false
    pi := 3
    width := 6
    height := 3
    rotateSpeed := 1
    zoomSpeed := 1
    tanHalfFov := 1
    upVector := ⟨0, 1, 0⟩ }

theorem Quat.mul_assoc' (p q r : Quat K) : (p.mul q).mul r = p.mul (q.mul r) := by
  obtain ⟨a, b, c, d⟩ := p
  obtain ⟨e, f, g, h⟩ := q
  obtain ⟨i, j, k, l⟩ := r
  simp only [Quat.mul, Quat.mk.injEq]
  refine ⟨by ring, by ring, by ring, by ring⟩

theorem Quat.normSq_mul (p q : Quat K) : (p.mul q).normSq = p.normSq * q.normSq := by
  obtain ⟨a, b, c, d⟩ := p
  obtain ⟨e, f, g, h⟩ := q
  simp only [Quat.mul, Quat.normSq]
  ring

theorem Quat.conj_mul (p q : Quat K) : (p.mul q).conj = q.conj.mul p.conj := by
  obtain ⟨a, b, c, d⟩ := p
  obtain ⟨e, f, g, h⟩ := q
  simp only [Quat.mul, Quat.conj, Quat.mk.injEq]
  refine ⟨by ring, by ring, by ring, by ring⟩

theorem Quat.normSq_conj (q : Quat K) : q.conj.normSq = q.normSq := by
  obtain ⟨a, b, c, d⟩ := q
  simp only [Quat.conj, Quat.normSq]
  ring

theorem Quat.mul_idQ (q : Quat K) : q.mul Quat.idQ = q := by
  obtain ⟨a, b, c, d⟩ := q
  simp only [Quat.mul, Quat.idQ, Quat.mk.injEq]
  refine ⟨by ring, by ring, by ring, by ring⟩

theorem Quat.idQ_mul (q : Quat K) : Quat.idQ.mul q = q := by
  obtain ⟨a, b, c, d⟩ := q
  simp only [Quat.mul, Quat.idQ, Quat.mk.injEq]
  refine ⟨by ring, by ring, by ring, by ring⟩

theorem Quat.normSq_idQ : (Quat.idQ : Quat K).normSq = 1 := by
  simp only [Quat.idQ, Quat.normSq]
  ring

/-- The gl-matrix vector transform agrees with the quaternion sandwich
`q · v · q̄` whenever `q` is a unit quaternion. -/
theorem transformQuat_sandwich (q : Quat K) (v : Vec3 K) (h : q.normSq = 1) :
    v.transformQuat q = ((q.mul (Quat.pureQ v)).mul q.conj).vec := by
  obtain ⟨vx, vy, vz⟩ := v
  obtain ⟨qx, qy, qz, qw⟩ := q
  simp only [Quat.normSq] at h
  simp only [Vec3.transformQuat, Vec3.cross, Quat.mul, Quat.pureQ, Quat.conj, Quat.vec,
    Vec3.mk.injEq]
  refine ⟨?_, ?_, ?_⟩
  · linear_combination (-vx) * h
  · linear_combination (-vy) * h
  · linear_combination (-vz) * h

theorem sandwich_w (q : Quat K) (v : Vec3 K) : ((q.mul (Quat.pureQ v)).mul q.conj).w = 0 := by
  obtain ⟨vx, vy, vz⟩ := v
  obtain ⟨qx, qy, qz, qw⟩ := q
  simp only [Quat.mul, Quat.pureQ, Quat.conj]
  ring

theorem pureQ_vec_of_w (z : Quat K) (h : z.w = 0) : Quat.pureQ z.vec = z := by
  obtain ⟨a, b, c, d⟩ := z
  simp only [Quat.vec, Quat.pureQ, Quat.mk.injEq]
  exact ⟨trivial, trivial, trivial, h.symm⟩

theorem sandwich_assoc (p q x : Quat K) :
    ((p.mul q).mul x).mul (p.mul q).conj = (p.mul ((q.mul x).mul q.conj)).mul p.conj := by
  obtain ⟨a, b, c, d⟩ := p
  obtain ⟨e, f, g, h⟩ := q
  obtain ⟨i, j, k, l⟩ := x
  simp only [Quat.mul, Quat.conj, Quat.mk.injEq]
  refine ⟨by ring, by ring, by ring, by ring⟩

/-- Transforming by a product of unit quaternions is transforming by the
right factor and then by the left factor. -/
theorem transformQuat_mul (p q : Quat K) (v : Vec3 K) (hp : p.normSq = 1)
    (hq : q.normSq = 1) :
    v.transformQuat (p.mul q) = (v.transformQuat q).transformQuat p := by
  have hpq : (p.mul q).normSq = 1 := by rw [Quat.normSq_mul, hp, hq, one_mul]
  rw [transformQuat_sandwich _ _ hpq, transformQuat_sandwich _ _ hq,
    transformQuat_sandwich _ _ hp, pureQ_vec_of_w _ (sandwich_w q v), sandwich_assoc]

/-- A quaternion's rotation fixes any multiple of its own vector part, for
every quaternion (the cross products vanish). -/
theorem transformQuat_scale_vec (q : Quat K) (c : K) :
    (q.vec.scale c).transformQuat q = q.vec.scale c := by
  obtain ⟨qx, qy, qz, qw⟩ := q
  simp only [Quat.vec, Vec3.scale, Vec3.transformQuat, Vec3.cross, Vec3.mk.injEq]
  refine ⟨by ring, by ring, by ring⟩

/-- A quaternion with zero vector part transforms every vector to itself. -/
theorem transformQuat_of_vec_zero (q : Quat K) (v : Vec3 K)
    (h : q.vec = (⟨0, 0, 0⟩ : Vec3 K)) : v.transformQuat q = v := by
  obtain ⟨vx, vy, vz⟩ := v
  obtain ⟨qx, qy, qz, qw⟩ := q
  simp only [Quat.vec, Vec3.mk.injEq] at h
  obtain ⟨hx, hy, hz⟩ := h
  subst hx; subst hy; subst hz
  simp only [Vec3.transformQuat, Vec3.cross, Vec3.mk.injEq]
  refine ⟨by ring, by ring, by ring⟩

theorem transformQuat_idQ (v : Vec3 K) : v.transformQuat Quat.idQ = v := by
  obtain ⟨vx, vy, vz⟩ := v
  simp only [Quat.idQ, Vec3.transformQuat, Vec3.cross, Vec3.mk.injEq]
  refine ⟨by ring, by ring, by ring⟩

theorem transformQuat_zero (q : Quat K) :
    (⟨0, 0, 0⟩ : Vec3 K).transformQuat q = ⟨0, 0, 0⟩ := by
  obtain ⟨qx, qy, qz, qw⟩ := q
  simp only [Vec3.transformQuat, Vec3.cross, Vec3.mk.injEq]
  refine ⟨by ring, by ring, by ring⟩

theorem vec_sqrLen (z : Quat K) : z.vec.sqrLen = z.normSq - z.w * z.w := by
  obtain ⟨a, b, c, d⟩ := z
  simp only [Quat.vec, Vec3.sqrLen, Quat.normSq]
  ring

theorem normSq_pureQ (v : Vec3 K) : (Quat.pureQ v).normSq = v.sqrLen := by
  obtain ⟨vx, vy, vz⟩ := v
  simp only [Quat.pureQ, Quat.normSq, Vec3.sqrLen]
  ring

/-- Transforming by a unit quaternion preserves squared length. -/
theorem sqrLen_transformQuat (q : Quat K) (v : Vec3 K) (h : q.normSq = 1) :
    (v.transformQuat q).sqrLen = v.sqrLen := by
  rw [transformQuat_sandwich _ _ h, vec_sqrLen, sandwich_w, Quat.normSq_mul,
    Quat.normSq_mul, Quat.normSq_conj, h, normSq_pureQ]
  ring

theorem normalize_of_normSq_one (sq : K → K) (q : Quat K) (hsq1 : sq 1 = 1)
    (h : q.normSq = 1) : q.normalize sq = q := by
  obtain ⟨a, b, c, d⟩ := q
  simp only [Quat.normalize, h, hsq1, if_pos one_pos, Quat.mk.injEq]
  norm_num

theorem normSq_nonneg (q : Quat K) : 0 ≤ q.normSq := by
  obtain ⟨a, b, c, d⟩ := q
  simp only [Quat.normSq]
  exact add_nonneg (add_nonneg (add_nonneg (mul_self_nonneg a) (mul_self_nonneg b))
    (mul_self_nonneg c)) (mul_self_nonneg d)

theorem normSq_eq_zero (q : Quat K) (h : q.normSq = 0) : q = (⟨0, 0, 0, 0⟩ : Quat K) := by
  obtain ⟨a, b, c, d⟩ := q
  simp only [Quat.normSq] at h
  have ha : a * a = 0 := le_antisymm
    (by nlinarith [mul_self_nonneg b, mul_self_nonneg c, mul_self_nonneg d])
    (mul_self_nonneg a)
  have hb : b * b = 0 := le_antisymm
    (by nlinarith [mul_self_nonneg a, mul_self_nonneg c, mul_self_nonneg d])
    (mul_self_nonneg b)
  have hc : c * c = 0 := le_antisymm
    (by nlinarith [mul_self_nonneg a, mul_self_nonneg b, mul_self_nonneg d])
    (mul_self_nonneg c)
  have hd : d * d = 0 := le_antisymm
    (by nlinarith [mul_self_nonneg a, mul_self_nonneg b, mul_self_nonneg c])
    (mul_self_nonneg d)
  simp only [Quat.mk.injEq]
  exact ⟨mul_self_eq_zero.mp ha, mul_self_eq_zero.mp hb,
    mul_self_eq_zero.mp hc, mul_self_eq_zero.mp hd⟩

theorem normSq_pos_of_ne_zero (q : Quat K) (h : q ≠ (⟨0, 0, 0, 0⟩ : Quat K)) :
    0 < q.normSq :=
  lt_of_le_of_ne (normSq_nonneg q) (fun h0 => h (normSq_eq_zero q h0.symm))

theorem ne_zero_of_normSq_one (q : Quat K) (h : q.normSq = 1) :
    q ≠ (⟨0, 0, 0, 0⟩ : Quat K) := by
  intro h0
  rw [h0] at h
  simp only [Quat.normSq] at h
  norm_num at h

theorem mulQ_ne_zero (p q : Quat K) (hp : p ≠ (⟨0, 0, 0, 0⟩ : Quat K))
    (hq : q ≠ (⟨0, 0, 0, 0⟩ : Quat K)) : p.mul q ≠ (⟨0, 0, 0, 0⟩ : Quat K) := by
  intro h
  have h1 : (p.mul q).normSq = 0 := by
    rw [h]; simp only [Quat.normSq]; ring
  rw [Quat.normSq_mul] at h1
  rcases mul_eq_zero.mp h1 with h2 | h2
  · exact hp (normSq_eq_zero p h2)
  · exact hq (normSq_eq_zero q h2)

theorem normSq_normalize (sq : K → K) (q : Quat K)
    (hsq : ∀ x : K, 0 < x → sq x * sq x = x)
    (hq : q ≠ (⟨0, 0, 0, 0⟩ : Quat K)) : (q.normalize sq).normSq = 1 := by
  have hL : 0 < q.normSq := normSq_pos_of_ne_zero q hq
  have hs := hsq _ hL
  have hs0 : sq q.normSq ≠ 0 := by
    intro h0
    rw [h0, mul_zero] at hs
    exact (ne_of_lt hL) hs
  obtain ⟨a, b, c, d⟩ := q
  simp only [Quat.normSq] at hL hs hs0 ⊢
  simp only [Quat.normalize, Quat.normSq, if_pos hL]
  field_simp
  linear_combination (-1 : K) * hs

theorem Vec3.add_comm' (a b : Vec3 K) : a.add b = b.add a := by
  obtain ⟨ax, ay, az⟩ := a
  obtain ⟨bx, by', bz⟩ := b
  simp only [Vec3.add, Vec3.mk.injEq]
  refine ⟨by ring, by ring, by ring⟩

theorem Vec3.sub_add_cancel' (a b : Vec3 K) : (a.sub b).add b = a := by
  obtain ⟨ax, ay, az⟩ := a
  obtain ⟨bx, by', bz⟩ := b
  simp only [Vec3.add, Vec3.sub, Vec3.mk.injEq]
  refine ⟨by ring, by ring, by ring⟩

theorem Vec3.add_zero' (a : Vec3 K) : a.add ⟨0, 0, 0⟩ = a := by
  obtain ⟨ax, ay, az⟩ := a
  simp only [Vec3.add, Vec3.mk.injEq]
  refine ⟨by ring, by ring, by ring⟩

theorem Vec3.sub_self' (a : Vec3 K) : a.sub a = (⟨0, 0, 0⟩ : Vec3 K) := by
  obtain ⟨ax, ay, az⟩ := a
  simp only [Vec3.sub, Vec3.mk.injEq]
  refine ⟨by ring, by ring, by ring⟩

theorem Vec3.add_sub_cancelL (a b : Vec3 K) : a.add (b.sub a) = b := by
  obtain ⟨ax, ay, az⟩ := a
  obtain ⟨bx, by', bz⟩ := b
  simp only [Vec3.add, Vec3.sub, Vec3.mk.injEq]
  refine ⟨by ring, by ring, by ring⟩

theorem Vec3.dot_unitY (d : Vec3 K) : d.dot ⟨0, 1, 0⟩ = d.y := by
  obtain ⟨dx, dy, dz⟩ := d
  simp only [Vec3.dot]
  ring

theorem factor_on_ray (o d : Vec3 K) (t : K) :
    ((o.add (d.scale t)).sub o).y = t * d.y := by
  obtain ⟨ox, oy, oz⟩ := o
  obtain ⟨dx, dy, dz⟩ := d
  simp only [Vec3.add, Vec3.sub, Vec3.scale]
  ring

/-- A ray cast from strictly positive parameter along a non-horizontal
direction hits the horizontal plane through its own point `o + t·d` exactly
at that point. -/
theorem intersect_ray_plane_on_ray (o d : Vec3 K) (t : K) (ht : 0 ≤ t)
    (hdy : d.y ≠ 0) :
    intersect_ray_plane o d ⟨0, 1, 0⟩ (o.add (d.scale t)) = some (o.add (d.scale t)) := by
  simp only [intersect_ray_plane, Vec3.dot_unitY, factor_on_ray]
  rw [if_neg hdy, mul_div_assoc, div_self hdy, mul_one,
    if_neg (not_lt.mpr ht)]

/-- Claim C4: `intersect_ray_plane` returns the origin when the ray lies in
the plane, nothing when the ray is parallel to but outside the plane or when
the parameter `t = ((p−o)·n)/(d·n)` is negative, and `o + t·d` otherwise;
in particular, on the plane `y = 0`, the downward ray from `(0,5,0)` hits
`(0,0,0)`, the upward ray from height `5` misses, and a horizontal ray at
height `0` returns its origin. -/
theorem c4_intersect_ray_plane_spec :
    (∀ o d n p : Vec3 ℝ,
      intersect_ray_plane o d n p =
        if d.dot n = 0 then
          if (p.sub o).dot n = 0 then some o else none
        else
          if (p.sub o).dot n / d.dot n < 0 then none
          else some (o.add (d.scale ((p.sub o).dot n / d.dot n))))
    ∧ intersect_ray_plane (⟨0, 5, 0⟩ : Vec3 ℚ) ⟨0, -1, 0⟩ ⟨0, 1, 0⟩ ⟨0, 0, 0⟩ =
        some ⟨0, 0, 0⟩
    ∧ intersect_ray_plane (⟨0, 5, 0⟩ : Vec3 ℚ) ⟨0, 1, 0⟩ ⟨0, 1, 0⟩ ⟨0, 0, 0⟩ = none
    ∧ ∀ ox oz : ℚ, ∀ dx dz : ℚ,
        intersect_ray_plane (⟨ox, 0, oz⟩ : Vec3 ℚ) ⟨dx, 0, dz⟩ ⟨0, 1, 0⟩ ⟨0, 0, 0⟩ =
          some ⟨ox, 0, oz⟩ := by
  refine ⟨fun o d n p => rfl, ?_, ?_, fun ox oz dx dz => ?_⟩
  · norm_num [intersect_ray_plane, Vec3.dot, Vec3.sub, Vec3.add, Vec3.scale]
  · norm_num [intersect_ray_plane, Vec3.dot, Vec3.sub]
  · simp only [intersect_ray_plane, Vec3.dot, Vec3.sub]
    norm_num

/-- Claim C5 counterexample: for the ray with origin `(0,0,0)` (on the plane)
and direction `(0,1,0)`, the general primitive finds the intersection `t = 0`
(the origin itself), while the specialised fast path returns no
intersection. -/
theorem c5_counterexample :
    intersect_xz_plane (⟨0, 0, 0⟩ : Vec3 ℚ) ⟨0, 1, 0⟩ ≠
      intersect_ray_plane (⟨0, 0, 0⟩ : Vec3 ℚ) ⟨0, 1, 0⟩ ⟨0, 1, 0⟩ ⟨0, 0, 0⟩ := by
  have h1 : intersect_xz_plane (⟨0, 0, 0⟩ : Vec3 ℚ) ⟨0, 1, 0⟩ = none := by
    norm_num [intersect_xz_plane]
  have h2 : intersect_ray_plane (⟨0, 0, 0⟩ : Vec3 ℚ) ⟨0, 1, 0⟩ ⟨0, 1, 0⟩ ⟨0, 0, 0⟩ =
      some ⟨0, 0, 0⟩ := by
    norm_num [intersect_ray_plane, Vec3.dot, Vec3.sub, Vec3.add, Vec3.scale]
  rw [h1, h2]
  exact fun h => Option.noConfusion h

/-- Claim C5 (amended): the fast path agrees with the general primitive on
the plane through the world origin whenever the ray origin is strictly above
the plane or the ray is horizontal; the two differ exactly on rays starting
at or below height zero that the general primitive can still intersect at
`t ≥ 0` (origin on the plane with `d.y ≠ 0`, or origin below with `d.y > 0`),
where the fast path reports no intersection. -/
theorem c5_fastpath_agrees (o d : Vec3 K) (h : 0 < o.y ∨ d.y = 0) :
    intersect_xz_plane o d = intersect_ray_plane o d ⟨0, 1, 0⟩ ⟨0, 0, 0⟩ := by
  obtain ⟨ox, oy, oz⟩ := o
  obtain ⟨dx, dy, dz⟩ := d
  simp only [intersect_xz_plane, intersect_ray_plane, Vec3.dot, Vec3.sub, Vec3.add,
    Vec3.scale] at h ⊢
  have hdot : dx * 0 + dy * 1 + dz * 0 = dy := by ring
  have hfac : (0 - ox) * 0 + (0 - oy) * 1 + (0 - oz) * 0 = -oy := by ring
  simp only [hdot, hfac]
  rcases h with h | h
  · rcases lt_trichotomy dy 0 with hdy | hdy | hdy
    · rw [if_neg (by intro hc; exact absurd hc.1 (ne_of_lt hdy)),
        if_neg (by push_neg; exact ⟨hdy, h⟩),
        if_neg (ne_of_lt hdy)]
      have ht : ¬ -oy / dy < 0 := by
        rw [not_lt]
        exact le_of_lt (div_pos_of_neg_of_neg (neg_lt_zero.mpr h) hdy)
      rw [if_neg ht]
      have : -(oy / dy) = -oy / dy := by ring
      rw [this]
    · rw [if_neg (by intro hc; exact absurd hc.2 (ne_of_gt h)), if_pos (Or.inl (le_of_eq hdy.symm)),
        if_pos hdy, if_neg (by simpa [hdy] using (ne_of_gt h))]
    · rw [if_neg (by intro hc; exact absurd hc.1 (ne_of_gt hdy)),
        if_pos (Or.inl (le_of_lt hdy)), if_neg (ne_of_gt hdy)]
      have ht : -oy / dy < 0 := div_neg_of_neg_of_pos (neg_lt_zero.mpr h) hdy
      rw [if_pos ht]
  · subst h
    rcases eq_or_ne oy 0 with hoy | hoy
    · subst hoy
      rw [if_pos ⟨rfl, rfl⟩, if_pos rfl, if_pos (by ring)]
    · rw [if_neg (by intro hc; exact absurd hc.2 hoy), if_pos (Or.inl le_rfl),
        if_pos rfl, if_neg (by simpa using hoy)]

/-- Claim C5 witness: a ray strictly above the plane, pointing down, on which
the fast path and the general primitive agree. -/
theorem c5_witness :
    (0 < (1 : ℚ) ∨ (-1 : ℚ) = 0) ∧
      intersect_xz_plane (⟨0, 1, 0⟩ : Vec3 ℚ) ⟨0, -1, 0⟩ =
        intersect_ray_plane (⟨0, 1, 0⟩ : Vec3 ℚ) ⟨0, -1, 0⟩ ⟨0, 1, 0⟩ ⟨0, 0, 0⟩ :=
  ⟨Or.inl one_pos, c5_fastpath_agrees ⟨0, 1, 0⟩ ⟨0, -1, 0⟩ (Or.inl one_pos)⟩

/-- Claim C1: `rotateAroundPoint(q, p0)` sets the orientation to
`normalize(old_orientation · q)` and the position to
`p0 + R(old_position − p0)`, where `R` is the rotation by `angle(q)` about
the axis of `q` transformed by the pre-rotation orientation.  The code
transforms the axis by the orientation read back after the composition, but a
rotation fixes every multiple of its own axis, so the two transformed axes
coincide; the hypothesis on `axisOf` states that the library's axis-angle
decomposition returns a multiple of the quaternion's vector part (or an
arbitrary axis when that part is zero and the rotation is trivial). -/
theorem c1_rotateAroundPoint_spec (e : Env K) (p : Pose K) (q0 : Quat K) (p0 : Vec3 K)
    (ho : p.orientation.normSq = 1) (hq : q0.normSq = 1) (hsq1 : e.sq 1 = 1)
    (haxis : (∃ c : K, e.axisOf q0 = q0.vec.scale c) ∨ q0.vec = (⟨0, 0, 0⟩ : Vec3 K)) :
    rotateAroundPoint e p q0 p0 =
      { orientation := (p.orientation.mul q0).normalize e.sq,
        position := p0.add ((p.position.sub p0).transformQuat
          (e.fromAA ((e.axisOf q0).transformQuat p.orientation) (e.angleOf q0))) } := by
  have hprod : (p.orientation.mul q0).normSq = 1 := by
    rw [Quat.normSq_mul, ho, hq, one_mul]
  have hnorm : (p.orientation.mul q0).normalize e.sq = p.orientation.mul q0 :=
    normalize_of_normSq_one _ _ hsq1 hprod
  have haxiseq : (e.axisOf q0).transformQuat ((p.orientation.mul q0).normalize e.sq) =
      (e.axisOf q0).transformQuat p.orientation := by
    rw [hnorm, transformQuat_mul _ _ _ ho hq]
    congr 1
    rcases haxis with ⟨c, hc⟩ | hz
    · rw [hc, transformQuat_scale_vec]
    · exact transformQuat_of_vec_zero _ _ hz
  simp only [rotateAroundPoint]
  rw [haxiseq, Vec3.add_comm']

/-- Claim C1 witness: a quarter-turn-style unit quaternion about the world y
axis applied to a unit-orientation pose, evaluated at an explicit pivot. -/
theorem c1_witness :
    rotateAroundPoint envQ ⟨⟨0, 0, 1⟩, ⟨1, 0, 0, 0⟩⟩ ⟨0, 1, 0, 0⟩ ⟨1, 0, 0⟩ =
      { orientation := ((⟨1, 0, 0, 0⟩ : Quat ℚ).mul ⟨0, 1, 0, 0⟩).normalize envQ.sq,
        position := (⟨1, 0, 0⟩ : Vec3 ℚ).add
          (((⟨0, 0, 1⟩ : Vec3 ℚ).sub ⟨1, 0, 0⟩).transformQuat
            (envQ.fromAA ((envQ.axisOf ⟨0, 1, 0, 0⟩).transformQuat ⟨1, 0, 0, 0⟩)
              (envQ.angleOf ⟨0, 1, 0, 0⟩))) } :=
  c1_rotateAroundPoint_spec envQ ⟨⟨0, 0, 1⟩, ⟨1, 0, 0, 0⟩⟩ ⟨0, 1, 0, 0⟩ ⟨1, 0, 0⟩
    (by simp [Quat.normSq]) (by simp [Quat.normSq]) rfl
    (Or.inl ⟨1, by simp [envQ, Quat.vec, Vec3.scale]⟩)

/-- Claim C2: `lookAround(rotSide, rotUp, up)` composes the vertical rotation
exactly when `|up · forward_after_vertical| ≤ 0.95`, where
`forward_after_vertical` is `(0,0,−1)` transformed by `rotUp · orientation`,
and the final orientation is `normalize(rotSide · [rotUp] · orientation)`. -/
theorem c2_lookAround_spec (e : Env K) (p : Pose K) (rotSide rotUp : Quat K)
    (up : Vec3 K) (hs : rotSide.normSq = 1) (hu : rotUp.normSq = 1)
    (hsq1 : e.sq 1 = 1) :
    lookAround e p rotSide rotUp up =
      { p with orientation :=
          if |up.dot (Vec3.transformQuat ⟨0, 0, -1⟩ (rotUp.mul p.orientation))| ≤ 95 / 100
          then ((rotSide.mul rotUp).mul p.orientation).normalize e.sq
          else (rotSide.mul p.orientation).normalize e.sq } := by
  have h1 : (rotSide.mul rotUp).normalize e.sq = rotSide.mul rotUp :=
    normalize_of_normSq_one _ _ hsq1 (by rw [Quat.normSq_mul, hs, hu, one_mul])
  have h2 : rotSide.normalize e.sq = rotSide := normalize_of_normSq_one _ _ hsq1 hs
  simp only [lookAround]
  split_ifs with hcond
  · rw [h1]
  · rw [h2]

/-- Claim C2 witness: unit side and up rotations on a unit pose, evaluated at
an explicit up vector. -/
theorem c2_witness :
    lookAround envQ ⟨⟨0, 0, 0⟩, ⟨0, 0, 0, 1⟩⟩ ⟨1, 0, 0, 0⟩ ⟨0, 1, 0, 0⟩ ⟨0, 1, 0⟩ =
      { position := (⟨0, 0, 0⟩ : Vec3 ℚ),
        orientation :=
          if |Vec3.dot ⟨0, 1, 0⟩ (Vec3.transformQuat ⟨0, 0, -1⟩
              ((⟨0, 1, 0, 0⟩ : Quat ℚ).mul ⟨0, 0, 0, 1⟩))| ≤ 95 / 100
          then (((⟨1, 0, 0, 0⟩ : Quat ℚ).mul ⟨0, 1, 0, 0⟩).mul ⟨0, 0, 0, 1⟩).normalize envQ.sq
          else ((⟨1, 0, 0, 0⟩ : Quat ℚ).mul ⟨0, 0, 0, 1⟩).normalize envQ.sq } :=
  c2_lookAround_spec envQ ⟨⟨0, 0, 0⟩, ⟨0, 0, 0, 1⟩⟩ ⟨1, 0, 0, 0⟩ ⟨0, 1, 0, 0⟩ ⟨0, 1, 0⟩
    (by simp [Quat.normSq]) (by simp [Quat.normSq]) rfl

/-- Claim C3 counterexample: an orbit move on which the resulting view
direction `(0,0,−1)·R(tmp)` has vertical component `336/625`, strictly inside
`(0.05, 0.95)` — so by the claim both the yaw and the pitch increment should
be applied and the orientation should become the normalized composite `tmp` —
yet the code tests the transformed `(0,0,1)` axis, whose vertical component
is `−336/625`, takes the yaw-only branch, and leaves the orientation at
`mx · orientation = ⟨0, 3/5, 0, 4/5⟩ ≠ tmp`.  The conjuncts spell out the
yaw `mx`, the pitch `my`, the normalized composite `tmp` and the resulting
view direction that the engine computes at this input. -/
theorem c3_counterexample :
    envC.fromAA ⟨0, 1, 0⟩ (-envC.rotateSpeed * (-1) * 2 * envC.pi / envC.width) =
      (⟨0, 3 / 5, 0, 4 / 5⟩ : Quat ℚ)
    ∧ envC.fromAA
        (Vec3.transformQuat ⟨1, 0, 0⟩ ((⟨0, 3 / 5, 0, 4 / 5⟩ : Quat ℚ).mul Quat.idQ))
        (-envC.rotateSpeed * (-1) * 2 * envC.pi / envC.height) =
      (⟨49 / 625, 0, -168 / 625, 24 / 25⟩ : Quat ℚ)
    ∧ ((((⟨49 / 625, 0, -168 / 625, 24 / 25⟩ : Quat ℚ).mul ⟨0, 3 / 5, 0, 4 / 5⟩).mul
          Quat.idQ).normalize envC.sq =
        (⟨28 / 125, 72 / 125, -21 / 125, 96 / 125⟩ : Quat ℚ))
    ∧ (Vec3.transformQuat ⟨0, 0, -1⟩
          (⟨28 / 125, 72 / 125, -21 / 125, 96 / 125⟩ : Quat ℚ)).y = 336 / 625
    ∧ ((5 : ℚ) / 100 < 336 / 625 ∧ (336 : ℚ) / 625 < 95 / 100)
    ∧ (orbitMove envC (some ⟨0, 0, 0⟩) ⟨⟨0, 0, 10⟩, Quat.idQ⟩ (-1) (-1)).orientation =
        (⟨0, 3 / 5, 0, 4 / 5⟩ : Quat ℚ)
    ∧ (⟨0, 3 / 5, 0, 4 / 5⟩ : Quat ℚ) ≠ ⟨28 / 125, 72 / 125, -21 / 125, 96 / 125⟩ := by
  have hmx : envC.fromAA ⟨0, 1, 0⟩ (-envC.rotateSpeed * (-1) * 2 * envC.pi / envC.width) =
      (⟨0, 3 / 5, 0, 4 / 5⟩ : Quat ℚ) := by
    norm_num [envC]
  have hmul1 : (⟨0, 3 / 5, 0, 4 / 5⟩ : Quat ℚ).mul Quat.idQ = ⟨0, 3 / 5, 0, 4 / 5⟩ := by
    norm_num [Quat.mul, Quat.idQ]
  have haxis2 : Vec3.transformQuat ⟨1, 0, 0⟩ (⟨0, 3 / 5, 0, 4 / 5⟩ : Quat ℚ) =
      ⟨7 / 25, 0, -24 / 25⟩ := by
    norm_num [Vec3.transformQuat, Vec3.cross]
  have hmy : envC.fromAA (⟨7 / 25, 0, -24 / 25⟩ : Vec3 ℚ)
        (-envC.rotateSpeed * (-1) * 2 * envC.pi / envC.height) =
      (⟨49 / 625, 0, -168 / 625, 24 / 25⟩ : Quat ℚ) := by
    norm_num [envC]
  have hq0 : (⟨49 / 625, 0, -168 / 625, 24 / 25⟩ : Quat ℚ).mul ⟨0, 3 / 5, 0, 4 / 5⟩ =
      (⟨28 / 125, 72 / 125, -21 / 125, 96 / 125⟩ : Quat ℚ) := by
    norm_num [Quat.mul]
  have hmul2 : (⟨28 / 125, 72 / 125, -21 / 125, 96 / 125⟩ : Quat ℚ).mul Quat.idQ =
      ⟨28 / 125, 72 / 125, -21 / 125, 96 / 125⟩ := by
    norm_num [Quat.mul, Quat.idQ]
  have htmp : ((⟨28 / 125, 72 / 125, -21 / 125, 96 / 125⟩ : Quat ℚ).normalize envC.sq) =
      ⟨28 / 125, 72 / 125, -21 / 125, 96 / 125⟩ := by
    norm_num [Quat.normalize, Quat.normSq, envC]
  have hrd : Vec3.transformQuat ⟨0, 0, 1⟩
      (⟨28 / 125, 72 / 125, -21 / 125, 96 / 125⟩ : Quat ℚ) =
      ⟨12648 / 15625, -336 / 625, 3689 / 15625⟩ := by
    norm_num [Vec3.transformQuat, Vec3.cross]
  refine ⟨hmx, ?_, ?_, ?_, by norm_num, ?_, ?_⟩
  · rw [hmul1, haxis2, hmy]
  · rw [hq0, hmul2, htmp]
  · norm_num [Vec3.transformQuat, Vec3.cross]
  · simp only [orbitMove]
    rw [hmx]
    simp only [hmul1, haxis2, hmy, hq0, hmul2, htmp, hrd]
    rw [if_neg (by norm_num)]
  · norm_num [Quat.mk.injEq]

/-- Claim C3 (amended): the orbit update applies both the yaw and the pitch
increment (orientation set to the normalized composite, position offset from
the examine point rotated by the composite) exactly when the transformed
`(0,0,1)` axis — the backward axis, not the view direction — has vertical
component strictly inside `(0.05, 0.95)` AND the resulting position stays
strictly above world height `5`; otherwise only the yaw is applied, directly
(orientation left-composed with the yaw without renormalization, position
offset rotated by the yaw about the world up axis), not via
`rotateAroundPoint`. -/
theorem c3_orbitMove_amended (e : Env K) (ep : Vec3 K) (p : Pose K) (dx dy : K) :
    orbitMove e (some ep) p dx dy =
      (let dx' := -e.rotateSpeed * dx * 2 * e.pi / e.width
       let dy' := -e.rotateSpeed * dy * 2 * e.pi / e.height
       let mx := e.fromAA ⟨0, 1, 0⟩ dx'
       let my := e.fromAA (Vec3.transformQuat ⟨1, 0, 0⟩ (mx.mul p.orientation)) dy'
       let q0 := my.mul mx
       let tmp := (q0.mul p.orientation).normalize e.sq
       let newPos := ep.add ((p.position.sub ep).transformQuat q0)
       if (5 / 100 < (Vec3.transformQuat ⟨0, 0, 1⟩ tmp).y ∧
            (Vec3.transformQuat ⟨0, 0, 1⟩ tmp).y < 95 / 100) ∧ 5 < newPos.y
       then { orientation := tmp, position := newPos }
       else { orientation := mx.mul p.orientation,
              position := ep.add ((p.position.sub ep).transformQuat mx) }) := by
  simp only [orbitMove]
  split_ifs with h1 h2 h3 <;> first | rfl | tauto

/-- Claim C6 counterexample: a Panning move at the gesture's previous pointer
position (so `dx = dy = 0` and the re-cast ray equals the press-time ray)
whose drag point lies ahead on a horizontal ray.  The ray–plane primitive
degenerates to the ray origin, so the camera is translated by
`dragPoint − origin ≠ 0`: the pose changes.  The first conjunct exhibits the
drag point as the point of the ray at parameter `1`. -/
theorem c6_counterexample :
    (⟨0, 0, -1⟩ : Vec3 ℚ) = Vec3.add ⟨0, 0, 0⟩ (Vec3.scale ⟨0, 0, -1⟩ 1)
    ∧ panningMove envQ (some ⟨0, 0, -1⟩) ⟨⟨0, 0, 0⟩, ⟨0, 0, -1⟩⟩
        ⟨⟨0, 0, 0⟩, ⟨0, 0, 0, 1⟩⟩ ≠ ⟨⟨0, 0, 0⟩, ⟨0, 0, 0, 1⟩⟩ := by
  constructor
  · norm_num [Vec3.add, Vec3.scale]
  · have h1 : panningMove envQ (some ⟨0, 0, -1⟩) ⟨⟨0, 0, 0⟩, ⟨0, 0, -1⟩⟩
        ⟨⟨0, 0, 0⟩, ⟨0, 0, 0, 1⟩⟩ = ⟨⟨0, 0, -1⟩, ⟨0, 0, 0, 1⟩⟩ := by
      norm_num [panningMove, intersect_ray_plane, translate, envQ,
        Vec3.dot, Vec3.sub, Vec3.add, Vec3.sqrLen]
    rw [h1]
    simp only [ne_eq, Pose.mk.injEq, Vec3.mk.injEq]
    norm_num

/-- Claim C6 (amended): a `move` with `dx = dy = 0` leaves the pose unchanged
for Translate, Dolly, Rotate, LookAround and Orbit; for Panning it leaves the
pose unchanged provided the re-cast ray is not horizontal (`d.y ≠ 0`) and the
drag point is the point of that ray at some parameter `t ≥ 0` — but a
horizontal ray whose drag point lies ahead on the ray translates the camera
by `dragPoint − origin` (the counterexample), because the ray–plane primitive
returns the ray origin for a ray lying in the plane. -/
theorem c6_moveZero_amended (e : Env K) (p : Pose K) (ep : Vec3 K)
    (epOpt : Option (Vec3 K)) (ho : p.orientation.normSq = 1) (hsq1 : e.sq 1 = 1)
    (hAA0 : ∀ a : Vec3 K, e.fromAA a 0 = Quat.idQ) (hang0 : e.angleOf Quat.idQ = 0) :
    translateMove e p 0 0 = p
    ∧ dollyMove e p 0 = p
    ∧ rotateMove e ep p 0 0 = p
    ∧ lookAroundMove e p 0 0 = p
    ∧ orbitMove e epOpt p 0 0 = p
    ∧ ∀ (o d : Vec3 K) (t : K), 0 ≤ t → d.y ≠ 0 →
        panningMove e (some (o.add (d.scale t))) ⟨o, d⟩ p = p := by
  have hno2 : p.orientation.normalize e.sq = p.orientation :=
    normalize_of_normSq_one _ _ hsq1 ho
  have hnid : (Quat.idQ : Quat K).normalize e.sq = Quat.idQ :=
    normalize_of_normSq_one _ _ hsq1 Quat.normSq_idQ
  refine ⟨?_, ?_, ?_, ?_, ?_, ?_⟩
  · simp only [translateMove, inverseTransformOf, translate, mul_zero, zero_mul,
      neg_zero]
    rw [transformQuat_zero, Vec3.add_zero']
  · simp only [dollyMove, inverseTransformOf, translate, mul_zero, zero_div]
    rw [transformQuat_zero, Vec3.add_zero']
  · simp only [rotateMove, mul_zero, zero_mul, zero_div, neg_zero, hAA0,
      Quat.mul_idQ, rotateAroundPoint, hno2, hang0, transformQuat_idQ,
      Vec3.sub_add_cancel']
  · simp only [lookAroundMove, mul_zero, zero_mul, zero_div, neg_zero, hAA0,
      lookAround, Quat.idQ_mul, Quat.mul_idQ]
    split_ifs <;> rw [hnid, Quat.idQ_mul, hno2]
  · rcases epOpt with _ | ep'
    · rfl
    · simp only [orbitMove, mul_zero, zero_mul, zero_div, neg_zero, hAA0,
        Quat.idQ_mul, Quat.mul_idQ, transformQuat_idQ, Vec3.add_sub_cancelL, hno2]
      split_ifs <;> rfl
  · intro o d t ht hdy
    simp only [panningMove, intersect_ray_plane_on_ray o d t ht hdy, Vec3.sub_self']
    split_ifs
    · rfl
    · simp only [translate, Vec3.add_zero']

/-- Claim C6 witness: the amended idempotence conjunction evaluated at an
identity-orientation pose with a concrete examine point. -/
theorem c6_witness :
    translateMove envQ ⟨⟨0, 0, 0⟩, ⟨0, 0, 0, 1⟩⟩ 0 0 = ⟨⟨0, 0, 0⟩, ⟨0, 0, 0, 1⟩⟩
    ∧ dollyMove envQ ⟨⟨0, 0, 0⟩, ⟨0, 0, 0, 1⟩⟩ 0 = ⟨⟨0, 0, 0⟩, ⟨0, 0, 0, 1⟩⟩
    ∧ rotateMove envQ ⟨1, 0, 0⟩ ⟨⟨0, 0, 0⟩, ⟨0, 0, 0, 1⟩⟩ 0 0 = ⟨⟨0, 0, 0⟩, ⟨0, 0, 0, 1⟩⟩
    ∧ lookAroundMove envQ ⟨⟨0, 0, 0⟩, ⟨0, 0, 0, 1⟩⟩ 0 0 = ⟨⟨0, 0, 0⟩, ⟨0, 0, 0, 1⟩⟩
    ∧ orbitMove envQ (some ⟨1, 0, 0⟩) ⟨⟨0, 0, 0⟩, ⟨0, 0, 0, 1⟩⟩ 0 0 =
        ⟨⟨0, 0, 0⟩, ⟨0, 0, 0, 1⟩⟩
    ∧ ∀ (o d : Vec3 ℚ) (t : ℚ), 0 ≤ t → d.y ≠ 0 →
        panningMove envQ (some (o.add (d.scale t))) ⟨o, d⟩ ⟨⟨0, 0, 0⟩, ⟨0, 0, 0, 1⟩⟩ =
          ⟨⟨0, 0, 0⟩, ⟨0, 0, 0, 1⟩⟩ :=
  c6_moveZero_amended envQ ⟨⟨0, 0, 0⟩, ⟨0, 0, 0, 1⟩⟩ ⟨1, 0, 0⟩ (some ⟨1, 0, 0⟩)
    (by simp [Quat.normSq]) rfl (fun _ => rfl) rfl

theorem unit_mul_unit (p q : Quat K) (hp : p.normSq = 1) (hq : q.normSq = 1) :
    (p.mul q).normSq = 1 := by
  rw [Quat.normSq_mul, hp, hq, one_mul]

theorem unit_normalize (e : Env K) (q : Quat K)
    (hsq : ∀ x : K, 0 < x → e.sq x * e.sq x = x) (hq : q.normSq = 1) :
    (q.normalize e.sq).normSq = 1 :=
  normSq_normalize _ _ hsq (ne_zero_of_normSq_one _ hq)

/-- `lookAround` writes back a unit orientation whenever the stored
orientation is unit and the (possibly non-unit) side and up rotations are
nonzero: the composite is normalized before and after composition. -/
theorem lookAround_unit (e : Env K) (p : Pose K) (rotSide rotUp : Quat K)
    (up : Vec3 K) (ho : p.orientation.normSq = 1)
    (hsq : ∀ x : K, 0 < x → e.sq x * e.sq x = x)
    (hS : rotSide ≠ (⟨0, 0, 0, 0⟩ : Quat K)) (hU : rotUp ≠ (⟨0, 0, 0, 0⟩ : Quat K)) :
    (lookAround e p rotSide rotUp up).orientation.normSq = 1 := by
  have key : ∀ r : Quat K, r ≠ (⟨0, 0, 0, 0⟩ : Quat K) →
      (((r.normalize e.sq).mul p.orientation).normalize e.sq).normSq = 1 := by
    intro r hr
    have h1 : (r.normalize e.sq).normSq = 1 := normSq_normalize _ _ hsq hr
    have h2 : ((r.normalize e.sq).mul p.orientation).normSq = 1 :=
      unit_mul_unit _ _ h1 ho
    exact normSq_normalize _ _ hsq (ne_zero_of_normSq_one _ h2)
  simp only [lookAround]
  split_ifs
  · exact key _ (mulQ_ne_zero _ _ hS hU)
  · exact key _ hS

/-- Claim C7: every pose-mutating operation — the facade's `translate`,
`rotate`, `rotateAroundPoint` and `lookAround`, and every action's move
handler, including the Orbit yaw-only fallback branches — leaves the stored
orientation a unit quaternion, given a unit starting orientation, a
square-root-like `sq`, an axis-angle constructor that is unit on unit axes,
and a unit configured up vector.  The Orbit fallback writes
`yaw · orientation` without an explicit renormalization; it is unit because
both factors are (exactly, in real arithmetic). -/
theorem c7_unit_invariant (e : Env K) (p : Pose K)
    (ho : p.orientation.normSq = 1)
    (hsq : ∀ x : K, 0 < x → e.sq x * e.sq x = x)
    (hAAu : ∀ (a : Vec3 K) (t : K), a.sqrLen = 1 → (e.fromAA a t).normSq = 1)
    (hup : e.upVector.sqrLen = 1) :
    (∀ v : Vec3 K, (translate p v).orientation.normSq = 1)
    ∧ (∀ q0 : Quat K, q0.normSq = 1 → (rotate e p q0).orientation.normSq = 1)
    ∧ (∀ (q0 : Quat K) (p0 : Vec3 K), q0.normSq = 1 →
        (rotateAroundPoint e p q0 p0).orientation.normSq = 1)
    ∧ (∀ (rotSide rotUp : Quat K) (up : Vec3 K),
        rotSide ≠ (⟨0, 0, 0, 0⟩ : Quat K) → rotUp ≠ (⟨0, 0, 0, 0⟩ : Quat K) →
        (lookAround e p rotSide rotUp up).orientation.normSq = 1)
    ∧ (∀ dx dy : K, (translateMove e p dx dy).orientation.normSq = 1)
    ∧ (∀ dy : K, (dollyMove e p dy).orientation.normSq = 1)
    ∧ (∀ (ep : Vec3 K) (dx dy : K), (rotateMove e ep p dx dy).orientation.normSq = 1)
    ∧ (∀ dx dy : K,
        e.fromAA (e.upVector.cross (direction p))
            (e.rotateSpeed * dy * 2 * e.pi / e.height) ≠ (⟨0, 0, 0, 0⟩ : Quat K) →
        (lookAroundMove e p dx dy).orientation.normSq = 1)
    ∧ (∀ (dp : Option (Vec3 K)) (ray : Ray K),
        (panningMove e dp ray p).orientation.normSq = 1)
    ∧ (∀ (epO : Option (Vec3 K)) (dx dy : K),
        (orbitMove e epO p dx dy).orientation.normSq = 1) := by
  have h010 : (⟨0, 1, 0⟩ : Vec3 K).sqrLen = 1 := by simp [Vec3.sqrLen]
  have h100 : (⟨1, 0, 0⟩ : Vec3 K).sqrLen = 1 := by simp [Vec3.sqrLen]
  refine ⟨fun v => ho, ?_, ?_, ?_, fun dx dy => ho, fun dy => ho, ?_, ?_, ?_, ?_⟩
  · intro q0 hq0
    exact unit_normalize e _ hsq (unit_mul_unit _ _ ho hq0)
  · intro q0 p0 hq0
    exact unit_normalize e _ hsq (unit_mul_unit _ _ ho hq0)
  · intro rotSide rotUp up hS hU
    exact lookAround_unit e p rotSide rotUp up ho hsq hS hU
  · intro ep dx dy
    simp only [rotateMove, rotateAroundPoint]
    exact unit_normalize e _ hsq
      (unit_mul_unit _ _ ho (unit_mul_unit _ _ (hAAu _ _ h010) (hAAu _ _ h100)))
  · intro dx dy hne
    simp only [lookAroundMove]
    exact lookAround_unit e p _ _ _ ho hsq
      (ne_zero_of_normSq_one _ (hAAu _ _ hup)) hne
  · intro dp ray
    rcases dp with _ | dpv
    · exact ho
    · simp only [panningMove]
      cases hI : intersect_ray_plane ray.origin ray.direction ⟨0, 1, 0⟩ dpv with
      | none => exact ho
      | some hit =>
        dsimp only
        split_ifs
        · exact ho
        · exact ho
  · intro epO dx dy
    rcases epO with _ | ep'
    · exact ho
    · simp only [orbitMove]
      have hmx : (e.fromAA ⟨0, 1, 0⟩ (-e.rotateSpeed * dx * 2 * e.pi / e.width)).normSq = 1 :=
        hAAu _ _ h010
      have haxis2 : (Vec3.transformQuat ⟨1, 0, 0⟩
          ((e.fromAA ⟨0, 1, 0⟩ (-e.rotateSpeed * dx * 2 * e.pi / e.width)).mul
            p.orientation)).sqrLen = 1 := by
        rw [sqrLen_transformQuat _ _ (unit_mul_unit _ _ hmx ho)]
        exact h100
      have hmy : (e.fromAA (Vec3.transformQuat ⟨1, 0, 0⟩
          ((e.fromAA ⟨0, 1, 0⟩ (-e.rotateSpeed * dx * 2 * e.pi / e.width)).mul
            p.orientation)) (-e.rotateSpeed * dy * 2 * e.pi / e.height)).normSq = 1 :=
        hAAu _ _ haxis2
      split_ifs
      · exact unit_normalize e _ hsq (unit_mul_unit _ _ (unit_mul_unit _ _ hmy hmx) ho)
      · exact unit_mul_unit _ _ hmx ho
      · exact unit_mul_unit _ _ hmx ho

/-- Claim C7 witness: the invariant conjunction evaluated over the reals with
the genuine square root, a trivially unit axis-angle constructor, and an
identity-orientation pose. -/
theorem c7_witness :
    (let e : Env ℝ := ⟨fun x => Real.sqrt x, fun _ _ => Quat.idQ, Quat.vec, fun _ => 0,
        fun _ => false, 0, 1, 1, 1, 1, 1, ⟨0, 1, 0⟩⟩
     let p : Pose ℝ := ⟨⟨0, 0, 0⟩, ⟨0, 0, 0, 1⟩⟩
     (∀ v : Vec3 ℝ, (translate p v).orientation.normSq = 1)
     ∧ (∀ q0 : Quat ℝ, q0.normSq = 1 → (rotate e p q0).orientation.normSq = 1)
     ∧ (∀ (q0 : Quat ℝ) (p0 : Vec3 ℝ), q0.normSq = 1 →
         (rotateAroundPoint e p q0 p0).orientation.normSq = 1)
     ∧ (∀ (rotSide rotUp : Quat ℝ) (up : Vec3 ℝ),
         rotSide ≠ (⟨0, 0, 0, 0⟩ : Quat ℝ) → rotUp ≠ (⟨0, 0, 0, 0⟩ : Quat ℝ) →
         (lookAround e p rotSide rotUp up).orientation.normSq = 1)
     ∧ (∀ dx dy : ℝ, (translateMove e p dx dy).orientation.normSq = 1)
     ∧ (∀ dy : ℝ, (dollyMove e p dy).orientation.normSq = 1)
     ∧ (∀ (ep : Vec3 ℝ) (dx dy : ℝ), (rotateMove e ep p dx dy).orientation.normSq = 1)
     ∧ (∀ dx dy : ℝ,
         e.fromAA (e.upVector.cross (direction p))
             (e.rotateSpeed * dy * 2 * e.pi / e.height) ≠ (⟨0, 0, 0, 0⟩ : Quat ℝ) →
         (lookAroundMove e p dx dy).orientation.normSq = 1)
     ∧ (∀ (dp : Option (Vec3 ℝ)) (ray : Ray ℝ),
         (panningMove e dp ray p).orientation.normSq = 1)
     ∧ (∀ (epO : Option (Vec3 ℝ)) (dx dy : ℝ),
         (orbitMove e epO p dx dy).orientation.normSq = 1)) :=
  c7_unit_invariant _ _ (by simp [Quat.normSq]) (fun x hx => Real.mul_self_sqrt hx.le)
    (fun a t _ => by simp [Quat.normSq, Quat.idQ]) (by simp [Vec3.sqrLen])

/-- Claim C8: a mouse press on a button whose table slot is a real action
saves the scene pick-on-hover flag and disables it; the flag stays `false`
through any number of moves; the release restores the exact pre-press value;
and a press on a button whose slot is the sentinel (or out of range) leaves
the flag untouched. -/
theorem c8_picking_flag_spec (m : Mode) (b : ℕ) (s : MState) (a : ActionK)
    (hsel : mouseLookup m b = some a) (n : ℕ) :
    (mousePressF m b s).picking = false
    ∧ (movesIter n (mousePressF m b s)).picking = false
    ∧ (mouseReleaseF (movesIter n (mousePressF m b s))).picking = s.picking
    ∧ ∀ (s' : MState) (b' : ℕ), mouseLookup m b' = none →
        (mousePressF m b' s').picking = s'.picking := by
  have hpress : mousePressF m b s =
      { action := some a, savedPicking := s.picking, picking := false } := by
    simp only [mousePressF, hsel]
  have hiter : ∀ (k : ℕ) (st : MState), movesIter k st = st := by
    intro k
    induction k with
    | zero => intro st; rfl
    | succ k ih => intro st; exact ih st
  refine ⟨?_, ?_, ?_, ?_⟩
  · rw [hpress]
  · rw [hiter, hpress]
  · rw [hiter, hpress]
    rfl
  · intro s' b' hnone
    simp only [mousePressF, hnone]

/-- Claim C8 witness: button 0 in examine mode (Rotate) with the scene flag
initially on, two intermediate moves, then release. -/
theorem c8_witness :
    (mousePressF .examine 0 ⟨none, false, true⟩).picking = false
    ∧ (movesIter 2 (mousePressF .examine 0 ⟨none, false, true⟩)).picking = false
    ∧ (mouseReleaseF (movesIter 2 (mousePressF .examine 0 ⟨none, false, true⟩))).picking = true
    ∧ ∀ (s' : MState) (b' : ℕ), mouseLookup .examine b' = none →
        (mousePressF .examine b' s').picking = s'.picking :=
  c8_picking_flag_spec .examine 0 ⟨none, false, true⟩ .rotate rfl 2

/-- Claim C9: the Panning move never partially updates the pose — the
orientation is always untouched, and the result is either exactly the input
pose (skip) or exactly the pose translated by `dragPoint − hitpoint`; the
update is skipped, without any error, when the drag point is unset, when the
re-cast ray misses the horizontal plane through the drag point, or when the
difference has NaN squared length. -/
theorem c9_panningMove_spec (e : Env K) (dp : Option (Vec3 K)) (ray : Ray K) (p : Pose K) :
    (panningMove e dp ray p).orientation = p.orientation
    ∧ (panningMove e dp ray p = p
        ∨ ∃ dpv hit, dp = some dpv
            ∧ intersect_ray_plane ray.origin ray.direction ⟨0, 1, 0⟩ dpv = some hit
            ∧ e.isNaN (dpv.sub hit).sqrLen = false
            ∧ panningMove e dp ray p =
                { p with position := p.position.add (dpv.sub hit) })
    ∧ (dp = none → panningMove e dp ray p = p)
    ∧ (∀ dpv, dp = some dpv →
        intersect_ray_plane ray.origin ray.direction ⟨0, 1, 0⟩ dpv = none →
        panningMove e dp ray p = p)
    ∧ (∀ dpv hit, dp = some dpv →
        intersect_ray_plane ray.origin ray.direction ⟨0, 1, 0⟩ dpv = some hit →
        e.isNaN (dpv.sub hit).sqrLen = true →
        panningMove e dp ray p = p) := by
  rcases dp with _ | dpv
  · exact ⟨rfl, Or.inl rfl, fun _ => rfl, fun _ h => Option.noConfusion h,
      fun _ _ h => Option.noConfusion h⟩
  · cases hI : intersect_ray_plane ray.origin ray.direction ⟨0, 1, 0⟩ dpv with
    | none =>
      have heval : panningMove e (some dpv) ray p = p := by
        simp only [panningMove, hI]
      exact ⟨by rw [heval], Or.inl heval, fun h => Option.noConfusion h,
        fun _ _ _ => heval, fun _ _ _ _ _ => heval⟩
    | some hit =>
      cases hN : e.isNaN (dpv.sub hit).sqrLen with
      | true =>
        have heval : panningMove e (some dpv) ray p = p := by
          simp only [panningMove, hI]
          rw [if_pos hN]
        exact ⟨by rw [heval], Or.inl heval, fun h => Option.noConfusion h,
          fun _ _ _ => heval, fun _ _ _ _ _ => heval⟩
      | false =>
        have heval : panningMove e (some dpv) ray p =
            { p with position := p.position.add (dpv.sub hit) } := by
          simp only [panningMove, hI]
          rw [if_neg (by simp [hN]), translate]
        refine ⟨by rw [heval], Or.inr ⟨dpv, hit, rfl, hI, hN, heval⟩,
          fun h => Option.noConfusion h, ?_, ?_⟩
        · intro d hd hI2
          cases Option.some.inj hd
          rw [hI] at hI2
          exact Option.noConfusion hI2
        · intro d hit2 hd hI2 hN2
          cases Option.some.inj hd
          rw [hI] at hI2
          cases Option.some.inj hI2
          rw [hN] at hN2
          exact Bool.noConfusion hN2

/-- Claim C10 counterexample: in examine mode, with an active Rotate action
and a two-touch snapshot, a touch end leaving one remaining touch.  The claim
predicts the action is re-selected from the touch table at the remaining
count (Rotate) and the snapshot is rebuilt; the current variant instead
clears the action to the sentinel and leaves the snapshot untouched. -/
theorem c10_counterexample :
    (touchEndF [((5 : ℚ), 6)] ⟨some .rotate, [(1, 2), (3, 4)]⟩).1 ≠
      ⟨touchSelect .examine [((5 : ℚ), 6)], [((5 : ℚ), 6)]⟩ := by
  have h1 : (touchEndF [((5 : ℚ), 6)] ⟨some .rotate, [(1, 2), (3, 4)]⟩).1 =
      ⟨none, [(1, 2), (3, 4)]⟩ := by
    simp [touchEndF, hasEnd]
  have h2 : touchSelect .examine [((5 : ℚ), 6)] = some .rotate := by
    simp [touchSelect, touchTable]
  rw [h1, h2]
  simp only [ne_eq, TState.mk.injEq, not_and]
  intro h
  exact absurd h (by simp)

/-- Claim C10 (amended, current variant): on touch start the engine selects
`modeTable.touch[touchCount − 1]`; a real action fires its `start` handler
(when it defines one) with the first touch and the snapshot is rebuilt from
all touches, while a sentinel slot clears the action without rebuilding.  On
touch end the active action's `end` handler would fire were one defined (no
catalog action defines one), the action is cleared to the sentinel regardless
of the remaining touch count — no re-selection — and the snapshot is left
unchanged.  The historical variant's touch end instead re-selects purely from
the remaining touch count and rebuilds the snapshot. -/
theorem c10_touch_amended (m : Mode) (touches : List (K × K)) :
    (∀ (s : TState K) (a : ActionK), touchSelect m touches = some a →
        (touchStartF m touches s).1.action = some a
        ∧ (touchStartF m touches s).1.prevTouch = touches
        ∧ (touchStartF m touches s).2 =
            (if hasStart a then some (a, touches.headD (0, 0)) else none))
    ∧ (∀ s : TState K, touchSelect m touches = none →
        touchStartF m touches s = ({ s with action := none }, none))
    ∧ (∀ (s : TState K) (a : ActionK), s.action = some a →
        (touchEndF touches s).1.action = none
        ∧ (touchEndF touches s).1.prevTouch = s.prevTouch
        ∧ (touchEndF touches s).2 = none)
    ∧ (∀ s : TState K, s.action = none → touchEndF touches s = (s, none))
    ∧ (∀ s s' : TState K, (touchEndHistF m touches s).prevTouch = touches
        ∧ (touchEndHistF m touches s).action = (touchEndHistF m touches s').action) := by
  refine ⟨?_, ?_, ?_, ?_, fun s s' => ⟨rfl, rfl⟩⟩
  · intro s a h
    simp only [touchStartF, h]
    exact ⟨trivial, trivial, trivial⟩
  · intro s h
    simp only [touchStartF, h]
  · intro s a h
    simp only [touchEndF, h, hasEnd]
    exact ⟨trivial, trivial, by simp⟩
  · intro s h
    simp only [touchEndF, h]

end CameraJS
